import Mathlib

/-!
A shallow embedding of the maybe-async-cfg source transformer, covering the
configuration model of `src/params.rs` (directive parsing, the inheritance
merge, the rename table, serialization back to a directive list) and the
transformation driver of `src/macros.rs` (the `maybe` entry point and the
per-item-kind `convert_*` functions).

Modelling conventions:
  * Rust `HashMap<String, V>` is an association list `List (String × V)`
    with insert-overwrites semantics (`hmGet`, `hmInsert`, `hmExtend`);
    `HashMap::extend(other)` inserts every entry of `other`, overwriting
    entries already present.
  * `syn::Meta` / `syn::NestedMeta` trees are the mutual inductives `Meta`,
    `NestedMeta`, `NestedMetaList` below; a `syn::Path` is its list of
    segment identifier strings, and `Path::get_ident` succeeds exactly on a
    single-segment path.  `syn::Lit` is collapsed to `Lit.str` versus
    `Lit.other`, the only distinction the source makes.
  * `syn::Result` is `Except String`; source spans attached to errors are
    not modelled, only the error message and the absence of any output.
  * Identifiers are plain strings; the `r#…` raw-identifier escape the
    source wraps around replacement names is lexical only and is dropped.
  * Panics (`unreachable!()` on a non-string literal inside a decoration
    list) are modelled as an error token in the produced token list.
-/

namespace MaybeAsyncCfg

/-- ConvertMode (params.rs): the rewrite target of one conversion. -/
inductive ConvertMode where
  | IntoSync
  | IntoAsync
deriving DecidableEq, Repr

/-- ConvertMode::from_str (params.rs): only "sync" and "async" name a mode. -/
def ConvertMode.from_str (s : String) : Option ConvertMode :=
  match s with
  | "sync" => some ConvertMode.IntoSync
  | "async" => some ConvertMode.IntoAsync
  | _ => none

/-- ConvertMode::to_str (params.rs). -/
def ConvertMode.to_str : ConvertMode → String
  | ConvertMode.IntoSync => "sync"
  | ConvertMode.IntoAsync => "async"

/-- A literal (syn::Lit): the source only distinguishes string literals
from every other literal kind. -/
inductive Lit where
  | str (s : String)
  | other
deriving DecidableEq, Repr

mutual
/-- A syn::Meta: a bare path, a name = literal pair, or name(...) list.
A path is its list of segment identifiers. -/
inductive Meta where
  | path (segs : List String)
  | nameValue (segs : List String) (lit : Lit)
  | list (segs : List String) (nested : NestedMetaList)
/-- A syn::NestedMeta: a nested meta item or a bare literal. -/
inductive NestedMeta where
  | meta (m : Meta)
  | lit (l : Lit)
/-- A Punctuated<NestedMeta, Comma> as its own list type, so that the
directive parser can recurse structurally through nested lists. -/
inductive NestedMetaList where
  | nil
  | cons (head : NestedMeta) (tail : NestedMetaList)
end

deriving instance DecidableEq for Meta, NestedMeta, NestedMetaList

/-- Path::get_ident: the single segment of a one-segment path. -/
def get_ident (segs : List String) : Option String :=
  match segs with
  | [s] => some s
  | _ => none

def NestedMetaList.append : NestedMetaList → NestedMetaList → NestedMetaList
  | NestedMetaList.nil, ys => ys
  | NestedMetaList.cons x xs, ys => NestedMetaList.cons x (NestedMetaList.append xs ys)

/-- Punctuated::push. -/
def NestedMetaList.push (xs : NestedMetaList) (x : NestedMeta) : NestedMetaList :=
  NestedMetaList.append xs (NestedMetaList.cons x NestedMetaList.nil)

def NestedMetaList.isEmpty : NestedMetaList → Bool
  | NestedMetaList.nil => true
  | NestedMetaList.cons _ _ => false

def NestedMetaList.length : NestedMetaList → Nat
  | NestedMetaList.nil => 0
  | NestedMetaList.cons _ rest => NestedMetaList.length rest + 1

def NestedMetaList.ofList : List NestedMeta → NestedMetaList
  | [] => NestedMetaList.nil
  | x :: xs => NestedMetaList.cons x (NestedMetaList.ofList xs)

/-- HashMap::get on the association-list model: the first entry with the key. -/
def hmGet {A : Type} (m : List (String × A)) (k : String) : Option A :=
  (m.find? (fun p => p.1 == k)).map (fun p => p.2)

/-- HashMap::insert: overwrite the entry with the key, or add one. -/
def hmInsert {A : Type} (m : List (String × A)) (k : String) (v : A) :
    List (String × A) :=
  if (m.find? (fun p => p.1 == k)).isSome then
    m.map (fun p => if p.1 == k then (k, v) else p)
  else
    m ++ [(k, v)]

/-- HashMap::extend: insert every entry of `other` into `m`, so entries of
`other` overwrite entries of `m` that share a key. -/
def hmExtend {A : Type} (m other : List (String × A)) : List (String × A) :=
  other.foldl (fun acc p => hmInsert acc p.1 p.2) m

/-- IdentRecord (params.rs): one rename rule of the rename table. -/
structure IdentRecord where
  fn_mode : Bool
  use_mode : Bool
  keep : Bool
  ident_sync : Option String
  ident_async : Option String
  idents : Option (List (String × String))
deriving DecidableEq, Repr

/-- IdentRecord::new. -/
def IdentRecord.new : IdentRecord :=
  { fn_mode := false, use_mode := false, keep := false,
    ident_sync := none, ident_async := none, idents := none }

/-- IdentRecord::with_fn_mode. -/
def IdentRecord.with_fn_mode (fn_mode : Bool) : IdentRecord :=
  { fn_mode := fn_mode, use_mode := false, keep := false,
    ident_sync := none, ident_async := none, idents := none }

/-- IdentRecord::ident_add_suffix (params.rs, lines 81-121): resolve the
replacement name of `ident` under `convert_mode`, with the optional variant
key `version_name`.  Returns the replacement identifier as a string (the
source's `r#` raw-identifier wrapping is lexical only). -/
def IdentRecord.ident_add_suffix (r : IdentRecord) (ident : String)
    (convert_mode : ConvertMode) (version_name : Option String) : String :=
  if r.keep then ident
  else
    match version_name.bind (fun vn => r.idents.bind (fun m => hmGet m vn)) with
    | some value => value
    | none =>
      match (match convert_mode with
             | ConvertMode.IntoSync => r.ident_sync
             | ConvertMode.IntoAsync => r.ident_async) with
      | some name => name
      | none =>
        let tail := match r.fn_mode, convert_mode with
          | false, ConvertMode.IntoAsync => "Async"
          | false, ConvertMode.IntoSync => "Sync"
          | true, ConvertMode.IntoAsync => "_async"
          | true, ConvertMode.IntoSync => "_sync"
        ident ++ tail

/-- make_path (utils.rs, absent from src/): every call site passes one plain
identifier, so the path has that single segment. -/
def make_path (name : String) : Meta := Meta.path [name]

/-- make_nestedmeta_namevalue (utils.rs, absent from src/): a
`name = "value"` pair, as every call site uses it. -/
def make_nestedmeta_namevalue (name value : String) : NestedMeta :=
  NestedMeta.meta (Meta.nameValue [name] (Lit.str value))

/-- make_nestedmeta_list (utils.rs, absent from src/): a `name(...)` list. -/
def make_nestedmeta_list (name : String) (nested : NestedMetaList) : NestedMeta :=
  NestedMeta.meta (Meta.list [name] nested)

/-- IdentRecord::to_nestedmeta (params.rs, lines 123-164): serialize the
rule back to one directive of an `idents(...)` list. -/
def IdentRecord.to_nestedmeta (r : IdentRecord) (name : String) : NestedMeta :=
  let nested := NestedMetaList.nil
  let nested := if r.fn_mode then nested.push (NestedMeta.meta (make_path "fn")) else nested
  let nested := if r.use_mode then nested.push (NestedMeta.meta (make_path "use")) else nested
  let nested := if r.keep then nested.push (NestedMeta.meta (make_path "keep")) else nested
  let nested := match r.ident_async with
    | some value =>
        if value == name then nested.push (NestedMeta.meta (make_path "async"))
        else nested.push (make_nestedmeta_namevalue "async" value)
    | none => nested
  let nested := match r.ident_sync with
    | some value =>
        if value == name then nested.push (NestedMeta.meta (make_path "sync"))
        else nested.push (make_nestedmeta_namevalue "sync" value)
    | none => nested
  let nested := match r.idents with
    | some m => m.foldl (fun acc kv => acc.push (make_nestedmeta_namevalue kv.1 kv.2)) nested
    | none => nested
  if nested.isEmpty then NestedMeta.meta (make_path name)
  else make_nestedmeta_list name nested

/-- The non-recursive fields of MacroParameters (params.rs, lines 175-194);
the recursive `versions` field lives in the inductive `MacroParameters`.
The source field `prefix` is spelled `prefix_` here. -/
structure MacroParametersBase where
  mode : Option ConvertMode
  disable : Bool
  key : Option String
  self_name : Option String
  keep_self : Bool
  prefix_ : Option String
  idents : List (String × IdentRecord)
  send : Option Bool
  cfg : Option Meta
  outer_attrs : NestedMetaList
  inner_attrs : NestedMetaList
  drop_attrs : List String
  replace_features : List (String × String)
deriving DecidableEq

mutual
/-- MacroParameters (params.rs): the configuration, with its recursive list
of declared variants (`versions`). -/
inductive MacroParameters where
  | mk (base : MacroParametersBase) (versions : VersionList)
/-- Vec<MacroParameterVersion>: each element a (kind, params) pair. -/
inductive VersionList where
  | nil
  | cons (kind : ConvertMode) (params : MacroParameters) (rest : VersionList)
end

deriving instance DecidableEq for MacroParameters, VersionList

def MacroParameters.base : MacroParameters → MacroParametersBase
  | MacroParameters.mk b _ => b

def MacroParameters.versions : MacroParameters → VersionList
  | MacroParameters.mk _ vs => vs

/-- Update the non-recursive fields, keeping the versions. -/
def MacroParameters.mapBase (f : MacroParametersBase → MacroParametersBase) :
    MacroParameters → MacroParameters
  | MacroParameters.mk b vs => MacroParameters.mk (f b) vs

/-- Vec::push on the version list. -/
def VersionList.push : VersionList → ConvertMode → MacroParameters → VersionList
  | VersionList.nil, k, q => VersionList.cons k q VersionList.nil
  | VersionList.cons k0 q0 rest, k, q => VersionList.cons k0 q0 (VersionList.push rest k q)

/-- Modelled from the spec: DEFAULT_CRATE_NAME and MACRO_MAYBE_NAME are
declared in the crate root, which is absent from src/; the default
attribute namespace is the crate's own name and the variant-generating
attribute is `maybe` (spec sections 4.4 and 6). -/
def DEFAULT_CRATE_NAME : String := "maybe_async_cfg"

def MACRO_MAYBE_NAME : String := "maybe"

def MODE_INTO_ASYNC : String := "__into_async"

def MODE_INTO_SYNC : String := "__into_sync"

def MacroParameters.disable_get (p : MacroParameters) : Bool := p.base.disable

def MacroParameters.mode_get (p : MacroParameters) : Option ConvertMode := p.base.mode

def MacroParameters.key_get (p : MacroParameters) : Option String := p.base.key

def MacroParameters.send_get (p : MacroParameters) : Option Bool := p.base.send

def MacroParameters.prefix_get (p : MacroParameters) : String :=
  (p.base.prefix_).getD DEFAULT_CRATE_NAME

/-- MacroParameters::make_self_path: the two-segment path
`prefix::name` (the configured prefix, defaulted to the crate name). -/
def MacroParameters.make_self_path (p : MacroParameters) (name : String) : List String :=
  [p.prefix_get, name]

/-- MacroParameters::default_ident_record. -/
def MacroParameters.default_ident_record (_p : MacroParameters) (fn_mode : Bool) :
    IdentRecord :=
  IdentRecord.with_fn_mode fn_mode

/-- MacroParameters::original_self_name_set (params.rs, lines 541-557):
register the unit's own name into the rename table.  A no-op when
`keep_self` is set or the name already has an entry; when both `key` and
`self_name` are configured the fresh rule's per-variant overrides are
seeded with that one pair. -/
def MacroParameters.original_self_name_set (p : MacroParameters) (name : String)
    (fn_mode : Bool) : MacroParameters :=
  if p.base.keep_self then p
  else if (hmGet p.base.idents name).isSome then p
  else
    let ir := p.default_ident_record fn_mode
    let ir := match p.base.key, p.base.self_name with
      | some key, some self_name => { ir with idents := some [(key, self_name)] }
      | _, _ => ir
    p.mapBase (fun b => { b with idents := hmInsert b.idents name ir })

/-- MacroParameters::apply_parent (params.rs, lines 501-527): the
inheritance merge of a variant with its parent.  The source performs five
independent in-place mutations of the child (each guarded as written
there); `HashMap::extend` makes parent entries overwrite child entries
that share a key.  The source's `syn::Result` return is always `Ok`. -/
def MacroParameters.apply_parent (child parent : MacroParameters) : MacroParameters :=
  MacroParameters.mk
    { child.base with
      disable := if parent.base.disable then true else child.base.disable,
      keep_self := if parent.base.keep_self then true else child.base.keep_self,
      idents := if parent.base.idents.isEmpty then child.base.idents
        else hmExtend child.base.idents parent.base.idents,
      drop_attrs := if parent.base.drop_attrs.isEmpty then child.base.drop_attrs
        else parent.base.drop_attrs ++ child.base.drop_attrs,
      replace_features := if parent.base.replace_features.isEmpty then
          child.base.replace_features
        else hmExtend child.base.replace_features parent.base.replace_features }
    child.versions

/-- MacroParametersBuilder::new: the all-default configuration. -/
def MacroParametersBuilder.new : MacroParameters :=
  MacroParameters.mk
    { mode := none, disable := false, key := none, self_name := none,
      keep_self := false, prefix_ := none, idents := [], send := none,
      cfg := none, outer_attrs := NestedMetaList.nil,
      inner_attrs := NestedMetaList.nil, drop_attrs := [],
      replace_features := [] }
    VersionList.nil

/-- MacroParametersBuilder::mode_into_sync. -/
def MacroParametersBuilder.mode_into_sync (p : MacroParameters) : MacroParameters :=
  p.mapBase (fun b => { b with mode := some ConvertMode.IntoSync })

/-- MacroParametersBuilder::mode_into_async. -/
def MacroParametersBuilder.mode_into_async (p : MacroParameters) : MacroParameters :=
  p.mapBase (fun b => { b with mode := some ConvertMode.IntoAsync })

/-- MacroParametersBuilder::key. -/
def MacroParametersBuilder.key (p : MacroParameters) (key : String) : MacroParameters :=
  p.mapBase (fun b => { b with key := some key })

/-- MacroParametersBuilder::self_name. -/
def MacroParametersBuilder.self_name (p : MacroParameters) (self_name : String) :
    MacroParameters :=
  p.mapBase (fun b => { b with self_name := some self_name })

/-- MacroParametersBuilder::disable. -/
def MacroParametersBuilder.disable (p : MacroParameters) : MacroParameters :=
  p.mapBase (fun b => { b with disable := true })

/-- MacroParametersBuilder::keep_self. -/
def MacroParametersBuilder.keep_self (p : MacroParameters) : MacroParameters :=
  p.mapBase (fun b => { b with keep_self := true })

/-- MacroParametersBuilder::prefix (spelled with a trailing underscore). -/
def MacroParametersBuilder.prefix_ (p : MacroParameters) (pr : String) : MacroParameters :=
  p.mapBase (fun b => { b with prefix_ := some pr })

/-- MacroParametersBuilder::send (params.rs, lines 816-829): parse the
tri-state send string. -/
def MacroParametersBuilder.send (p : MacroParameters) (send : String) :
    Except String MacroParameters :=
  match send with
  | "" | "Send" | "true" =>
      Except.ok (p.mapBase (fun b => { b with send := some true }))
  | "?Send" | "false" =>
      Except.ok (p.mapBase (fun b => { b with send := some false }))
  | _ => Except.error "Only accepts `Send` or `?Send`"

/-- MacroParametersBuilder::cfg_meta: store the condition. -/
def MacroParametersBuilder.cfg_meta (p : MacroParameters) (m : Meta) : MacroParameters :=
  p.mapBase (fun b => { b with cfg := some m })

/-- MacroParametersBuilder::feature: delegates to cfg_meta. -/
def MacroParametersBuilder.feature (p : MacroParameters) (m : Meta) : MacroParameters :=
  MacroParametersBuilder.cfg_meta p m

/-- MacroParametersBuilder::cfg_list (params.rs, lines 835-864): a
`cfg(...)` list must hold exactly one nested Meta condition. -/
def MacroParametersBuilder.cfg_list (p : MacroParameters) (nested : NestedMetaList) :
    Except String MacroParameters :=
  match nested with
  | NestedMetaList.nil => Except.error "Expected condition"
  | NestedMetaList.cons (NestedMeta.meta first_meta) NestedMetaList.nil =>
      Except.ok (MacroParametersBuilder.cfg_meta p first_meta)
  | NestedMetaList.cons (NestedMeta.lit _) NestedMetaList.nil =>
      Except.error "Expected condition"
  | NestedMetaList.cons _ (NestedMetaList.cons _ _) =>
      Except.error "Expected condition"

/-- MacroParametersBuilder::outer_attrs: first occurrence assigns, later
occurrences extend. -/
def MacroParametersBuilder.outer_attrs (p : MacroParameters) (list : NestedMetaList) :
    MacroParameters :=
  p.mapBase (fun b =>
    if b.outer_attrs.isEmpty then { b with outer_attrs := list }
    else { b with outer_attrs := b.outer_attrs.append list })

/-- MacroParametersBuilder::inner_attrs. -/
def MacroParametersBuilder.inner_attrs (p : MacroParameters) (list : NestedMetaList) :
    MacroParameters :=
  p.mapBase (fun b =>
    if b.inner_attrs.isEmpty then { b with inner_attrs := list }
    else { b with inner_attrs := b.inner_attrs.append list })

/-- MacroParametersBuilder::inner_attr_str: push a bare string literal. -/
def MacroParametersBuilder.inner_attr_str (p : MacroParameters) (lit : Lit) :
    MacroParameters :=
  p.mapBase (fun b => { b with inner_attrs := b.inner_attrs.push (NestedMeta.lit lit) })

/-- MacroParametersBuilder::inner_attr: push a meta directive verbatim. -/
def MacroParametersBuilder.inner_attr (p : MacroParameters) (m : Meta) : MacroParameters :=
  p.mapBase (fun b => { b with inner_attrs := b.inner_attrs.push (NestedMeta.meta m) })

/-- MacroParametersBuilder::drop_attrs (params.rs, lines 926-948): each
element must be a plain-ident path; names accumulate in order. -/
def MacroParametersBuilder.drop_attrs (p : MacroParameters) :
    NestedMetaList → Except String MacroParameters
  | NestedMetaList.nil => Except.ok p
  | NestedMetaList.cons (NestedMeta.meta (Meta.path segs)) rest =>
      match get_ident segs with
      | some name =>
          MacroParametersBuilder.drop_attrs
            (p.mapBase (fun b => { b with drop_attrs := b.drop_attrs ++ [name] })) rest
      | none => Except.error "Expected ident"
  | NestedMetaList.cons (NestedMeta.meta (Meta.nameValue _ _)) _ =>
      Except.error "Expected list of idents"
  | NestedMetaList.cons (NestedMeta.meta (Meta.list _ _)) _ =>
      Except.error "Expected list of idents"
  | NestedMetaList.cons (NestedMeta.lit _) _ =>
      Except.error "Expected list of idents"

/-- MacroParametersBuilder::replace_feature (params.rs, lines 950-983):
exactly two string literals, or an error. -/
def MacroParametersBuilder.replace_feature (p : MacroParameters)
    (meta : NestedMetaList) : Except String MacroParameters :=
  match meta with
  | NestedMetaList.cons m0 (NestedMetaList.cons m1 NestedMetaList.nil) =>
      (match m0 with
       | NestedMeta.lit (Lit.str prev) =>
           (match m1 with
            | NestedMeta.lit (Lit.str new) =>
                Except.ok (p.mapBase (fun b =>
                  { b with replace_features := hmInsert b.replace_features prev new }))
            | _ => Except.error "Expected string literal")
       | _ => Except.error "Expected string literal")
  | _ => Except.error "Expected two string literals"

/-- The inner loop of MacroParametersBuilder::idents over one
`name(...)` entry's nested directives, folding them into the record. -/
def identRecordEntry (ident : String) (ir : IdentRecord) :
    NestedMetaList → Except String IdentRecord
  | NestedMetaList.nil => Except.ok ir
  | NestedMetaList.cons inm rest =>
      match inm with
      | NestedMeta.meta (Meta.path segs) =>
          (match get_ident segs with
           | none => Except.error "Expected ident, but not complex path"
           | some iname =>
             match iname with
             | "fn" => identRecordEntry ident { ir with fn_mode := true } rest
             | "use" => identRecordEntry ident { ir with use_mode := true } rest
             | "keep" => identRecordEntry ident { ir with keep := true } rest
             | "sync" => identRecordEntry ident { ir with ident_sync := some ident } rest
             | "async" => identRecordEntry ident { ir with ident_async := some ident } rest
             | _ => Except.error "Expected fn, use, keep, sync, async")
      | NestedMeta.meta (Meta.nameValue segs (Lit.str ivalue)) =>
          (match get_ident segs with
           | none => Except.error "Expected ident, but not complex path"
           | some iname =>
             match iname with
             | "sync" => identRecordEntry ident { ir with ident_sync := some ivalue } rest
             | "async" => identRecordEntry ident { ir with ident_async := some ivalue } rest
             | _ => identRecordEntry ident
                 { ir with idents := some (hmInsert (ir.idents.getD []) iname ivalue) } rest)
      | NestedMeta.meta (Meta.nameValue _ Lit.other) =>
          Except.error "Expected fn, sync = \"ident\", or async = \"ident\""
      | NestedMeta.meta (Meta.list _ _) =>
          Except.error "Expected fn, sync = \"ident\", or async = \"ident\""
      | NestedMeta.lit _ =>
          Except.error "Expected fn, sync = \"ident\", or async = \"ident\""

/-- MacroParametersBuilder::idents (params.rs, lines 708-814): parse a bulk
`idents(...)` list into the rename table. -/
def MacroParametersBuilder.idents (idents : List (String × IdentRecord)) :
    NestedMetaList → Except String (List (String × IdentRecord))
  | NestedMetaList.nil => Except.ok idents
  | NestedMetaList.cons nm rest =>
      match nm with
      | NestedMeta.meta (Meta.path segs) =>
          (match get_ident segs with
           | none => Except.error "Expected ident, but not complex path"
           | some ident =>
               MacroParametersBuilder.idents (hmInsert idents ident IdentRecord.new) rest)
      | NestedMeta.meta (Meta.list segs nested) =>
          (match get_ident segs with
           | none => Except.error "Expected ident, but not complex path"
           | some ident =>
             match identRecordEntry ident IdentRecord.new nested with
             | Except.error e => Except.error e
             | Except.ok ir =>
                 MacroParametersBuilder.idents (hmInsert idents ident ir) rest)
      | NestedMeta.meta (Meta.nameValue _ _) =>
          Except.error "Expected name = \"value\" pair"
      | NestedMeta.lit _ =>
          Except.error "Expected name = \"value\" pair"

/-- MacroParametersBuilder::build (params.rs, lines 985-999) applied to the
version list: merge the parent into every declared variant and default the
variant's key to its mode's canonical name.  The parent the source passes
has its versions taken out by `mem::replace`. -/
def VersionList.applyParentAll (parent : MacroParameters) :
    VersionList → VersionList
  | VersionList.nil => VersionList.nil
  | VersionList.cons kind q rest =>
      let q := MacroParameters.apply_parent q parent
      let q := if q.base.key.isNone then
          q.mapBase (fun b => { b with key := some kind.to_str })
        else q
      VersionList.cons kind q (VersionList.applyParentAll parent rest)

/-- MacroParametersBuilder::build. -/
def MacroParametersBuilder.build (p : MacroParameters) : MacroParameters :=
  MacroParameters.mk p.base
    (VersionList.applyParentAll (MacroParameters.mk p.base VersionList.nil) p.versions)

/-- The name = literal arm of MacroParameters::from_args (params.rs, lines
250-271).  `segs` is the pair's path (always the single segment `name`);
the `feature` arm stores the whole name-value meta as the condition. -/
def stepNameValue (p : MacroParameters) (name : String) (segs : List String)
    (lit : Lit) : Except String MacroParameters :=
  match name with
  | "key" =>
      (match lit with
       | Lit.str v => Except.ok (MacroParametersBuilder.key p v)
       | Lit.other => Except.error "Expected string literal")
  | "self" =>
      (match lit with
       | Lit.str v => Except.ok (MacroParametersBuilder.self_name p v)
       | Lit.other => Except.error "Expected string literal")
  | "prefix" =>
      (match lit with
       | Lit.str v => Except.ok (MacroParametersBuilder.prefix_ p v)
       | Lit.other => Except.error "Expected string literal")
  | "send" =>
      (match lit with
       | Lit.str v => MacroParametersBuilder.send p v
       | Lit.other => Except.error "Expected string literal")
  | "feature" =>
      (match lit with
       | Lit.str _ =>
           Except.ok (MacroParametersBuilder.feature p (Meta.nameValue segs lit))
       | Lit.other => Except.error "Expected string literal")
  | _ => Except.error ("Wrong name for name-value pair: " ++ name)

/-- The bare-path arm of MacroParameters::from_args (params.rs, lines
295-307): mode markers and flags, everything else an inner decoration. -/
def stepPath (p : MacroParameters) (segs : List String) : MacroParameters :=
  match get_ident segs with
  | some name =>
      match name with
      | "__into_async" => MacroParametersBuilder.mode_into_async p
      | "__into_sync" => MacroParametersBuilder.mode_into_sync p
      | "disable" => MacroParametersBuilder.disable p
      | "keep_self" => MacroParametersBuilder.keep_self p
      | _ => MacroParametersBuilder.inner_attr p (Meta.path segs)
  | none => MacroParametersBuilder.inner_attr p (Meta.path segs)

/-- The reserved names of the list arm of MacroParameters::from_args
(params.rs, lines 281-292); `none` means the name falls through to
version_or_inner_attr. -/
def stepList (p : MacroParameters) (name : String) (segs : List String)
    (nested : NestedMetaList) : Option (Except String MacroParameters) :=
  match name with
  | "cfg" => some (MacroParametersBuilder.cfg_list p nested)
  | "idents" =>
      some (match MacroParametersBuilder.idents p.base.idents nested with
        | Except.error e => Except.error e
        | Except.ok m => Except.ok (p.mapBase (fun b => { b with idents := m })))
  | "any" => some (Except.ok (MacroParametersBuilder.cfg_meta p (Meta.list segs nested)))
  | "all" => some (Except.ok (MacroParametersBuilder.cfg_meta p (Meta.list segs nested)))
  | "not" => some (Except.ok (MacroParametersBuilder.cfg_meta p (Meta.list segs nested)))
  | "outer" => some (Except.ok (MacroParametersBuilder.outer_attrs p nested))
  | "inner" => some (Except.ok (MacroParametersBuilder.inner_attrs p nested))
  | "replace_feature" => some (MacroParametersBuilder.replace_feature p nested)
  | "drop_attrs" => some (MacroParametersBuilder.drop_attrs p nested)
  | _ => none

/-- The argument loop of MacroParameters::from_args (params.rs, lines
244-313), threading the builder state through the directive list.  A list
directive whose name is no reserved keyword is a variant declaration when
the name is a mode keyword (parsed recursively, then built), otherwise an
inner decoration (version_or_inner_attr, lines 890-902). -/
def fromArgsLoop (p : MacroParameters) : NestedMetaList → Except String MacroParameters
  | NestedMetaList.nil => Except.ok p
  | NestedMetaList.cons arg rest =>
      match arg with
      | NestedMeta.meta (Meta.nameValue segs lit) =>
          (match get_ident segs with
           | none => Except.error "Expected name"
           | some name =>
             match stepNameValue p name segs lit with
             | Except.error e => Except.error e
             | Except.ok p2 => fromArgsLoop p2 rest)
      | NestedMeta.meta (Meta.list segs nested) =>
          (match get_ident segs with
           | none => Except.error "Expected name"
           | some name =>
             match stepList p name segs nested with
             | some (Except.error e) => Except.error e
             | some (Except.ok p2) => fromArgsLoop p2 rest
             | none =>
               match ConvertMode.from_str name with
               | some kind =>
                   (match fromArgsLoop MacroParametersBuilder.new nested with
                    | Except.error e => Except.error e
                    | Except.ok inner =>
                        fromArgsLoop
                          (MacroParameters.mk p.base
                            (p.versions.push kind (MacroParametersBuilder.build inner)))
                          rest)
               | none =>
                   fromArgsLoop (MacroParametersBuilder.inner_attr p (Meta.list segs nested))
                     rest)
      | NestedMeta.meta (Meta.path segs) => fromArgsLoop (stepPath p segs) rest
      | NestedMeta.lit (Lit.str s) =>
          fromArgsLoop (MacroParametersBuilder.inner_attr_str p (Lit.str s)) rest
      | NestedMeta.lit Lit.other => Except.error "Expected string literal"

/-- MacroParameters::from_args: run the argument loop on a fresh builder,
then build (inheritance merge of the declared variants). -/
def MacroParameters.from_args (args : NestedMetaList) : Except String MacroParameters :=
  match fromArgsLoop MacroParametersBuilder.new args with
  | Except.error e => Except.error e
  | Except.ok p => Except.ok (MacroParametersBuilder.build p)

mutual
/-- MacroParameters::to_nestedmeta (params.rs, lines 338-443): serialize
the configuration back to a flat directive list.  Note the source pushes
the send setting under the name "prefix" (lines 376-381). -/
def MacroParameters.to_nestedmeta (p : MacroParameters) (add_mode : Option ConvertMode) :
    NestedMetaList :=
  match p with
  | MacroParameters.mk b vs =>
    let args := NestedMetaList.nil
    let mode := match add_mode with
      | some m => some m
      | none => b.mode
    let args := match mode with
      | some ConvertMode.IntoAsync =>
          args.push (NestedMeta.meta (make_path MODE_INTO_ASYNC))
      | some ConvertMode.IntoSync =>
          args.push (NestedMeta.meta (make_path MODE_INTO_SYNC))
      | none => args
    let args := if b.disable then args.push (NestedMeta.meta (make_path "disable")) else args
    let args := if b.keep_self then args.push (NestedMeta.meta (make_path "keep_self")) else args
    let args := match b.key with
      | some key => args.push (make_nestedmeta_namevalue "key" key)
      | none => args
    let args := match b.self_name with
      | some sn => args.push (make_nestedmeta_namevalue "self" sn)
      | none => args
    let args := match b.prefix_ with
      | some pr => args.push (make_nestedmeta_namevalue "prefix" pr)
      | none => args
    let args := match b.send with
      | some s =>
          args.push (make_nestedmeta_namevalue "prefix" (if s then "Send" else "?Send"))
      | none => args
    let args := match b.cfg with
      | some c =>
          args.push (make_nestedmeta_list "cfg"
            (NestedMetaList.cons (NestedMeta.meta c) NestedMetaList.nil))
      | none => args
    let args := if b.outer_attrs.isEmpty then args
      else args.push (make_nestedmeta_list "outer" b.outer_attrs)
    let args := if b.inner_attrs.isEmpty then args
      else args.push (make_nestedmeta_list "inner" b.inner_attrs)
    let args := if b.idents.isEmpty then args
      else args.push (make_nestedmeta_list "idents"
        (NestedMetaList.ofList (b.idents.map (fun kv => IdentRecord.to_nestedmeta kv.2 kv.1))))
    let args := if b.drop_attrs.isEmpty then args
      else args.push (make_nestedmeta_list "drop_attrs"
        (NestedMetaList.ofList (b.drop_attrs.map (fun n => NestedMeta.meta (make_path n)))))
    let args := b.replace_features.foldl (fun acc kv =>
        acc.push (make_nestedmeta_list "replace_feature"
          (NestedMetaList.cons (NestedMeta.lit (Lit.str kv.1))
            (NestedMetaList.cons (NestedMeta.lit (Lit.str kv.2)) NestedMetaList.nil)))) args
    NestedMetaList.append args (VersionList.to_nestedmeta vs)
/-- The version loop of MacroParameters::to_nestedmeta (params.rs, lines
431-440): each variant serializes under its mode keyword. -/
def VersionList.to_nestedmeta : VersionList → NestedMetaList
  | VersionList.nil => NestedMetaList.nil
  | VersionList.cons kind q rest =>
      NestedMetaList.cons
        (make_nestedmeta_list kind.to_str (MacroParameters.to_nestedmeta q none))
        (VersionList.to_nestedmeta rest)
end

/-- A function or method signature, kept to the two parts the structural
pass of macros.rs touches or reads: the name and the asyncness marker. -/
structure FnSig where
  ident : String
  asyncness : Bool
deriving DecidableEq, Repr

/-- A syn::ImplItem: a method, or any other item kind (const, type, ...)
held opaque. -/
inductive ImplItem where
  | method (sig : FnSig) (rest : String)
  | other (data : String)
deriving DecidableEq, Repr

/-- A syn::TraitItem: a method, or any other item kind held opaque. -/
inductive TraitItem where
  | method (sig : FnSig) (rest : String)
  | other (data : String)
deriving DecidableEq, Repr

/-- The self type of an impl block: a path type (its segment list), or any
other type held opaque. -/
inductive TypeRepr where
  | path (segs : List String)
  | other (data : String)
deriving DecidableEq, Repr

/-- A syn::ItemImpl, kept to the parts convert_impl touches: the attached
attributes (each rendered as its source text), the self type and the items. -/
structure ItemImpl where
  attrs : List String
  self_ty : TypeRepr
  items : List ImplItem
deriving DecidableEq, Repr

structure ItemStruct where
  ident : String
  body : String
deriving DecidableEq, Repr

structure ItemEnum where
  ident : String
  body : String
deriving DecidableEq, Repr

structure ItemTrait where
  ident : String
  items : List TraitItem
deriving DecidableEq, Repr

structure ItemFn where
  sig : FnSig
  body : String
deriving DecidableEq, Repr

structure ItemUse where
  tree : String
deriving DecidableEq, Repr

structure ItemMod where
  ident : String
  content : String
deriving DecidableEq, Repr

/-- A top-level syn::Item: the seven kinds convert dispatches on, plus
`other` for every remaining kind (static, const, macro invocation, ...). -/
inductive Item where
  | impl (i : ItemImpl)
  | struct (i : ItemStruct)
  | enum (i : ItemEnum)
  | trait (i : ItemTrait)
  | fn (i : ItemFn)
  | use (i : ItemUse)
  | mod (i : ItemMod)
  | other (data : String)
deriving DecidableEq, Repr

/-- The IntoSync arm of convert_impl (macros.rs, lines 114-121): drop the
asyncness marker from every method signature of the block. -/
def stripImplMethods (items : List ImplItem) : List ImplItem :=
  items.map (fun inner =>
    match inner with
    | ImplItem.method sig rest =>
        if sig.asyncness then ImplItem.method { sig with asyncness := false } rest
        else ImplItem.method sig rest
    | ImplItem.other d => ImplItem.other d)

/-- The IntoSync arm of convert_trait (macros.rs, lines 159-167). -/
def stripTraitMethods (items : List TraitItem) : List TraitItem :=
  items.map (fun inner =>
    match inner with
    | TraitItem.method sig rest =>
        if sig.asyncness then TraitItem.method { sig with asyncness := false } rest
        else TraitItem.method sig rest
    | TraitItem.other d => TraitItem.other d)

/-- convert_impl (macros.rs, lines 99-137): register the self type's last
path segment as a non-call target, then either strip method asyncness
(IntoSync) or, when send is configured, push the async_trait attribute on
the block (IntoAsync).  The subsequent AsyncAwaitVisitor pass (its source
is outside src/) performs identifier renaming only and is not part of the
structural edit modelled here. -/
def convert_impl (params : MacroParameters) (item : ItemImpl) (cm : ConvertMode) :
    MacroParameters × ItemImpl :=
  let params := match item.self_ty with
    | TypeRepr.path segs =>
        (match segs.getLast? with
         | some last => params.original_self_name_set last false
         | none => params)
    | TypeRepr.other _ => params
  let send := params.send_get
  match cm with
  | ConvertMode.IntoSync => (params, { item with items := stripImplMethods item.items })
  | ConvertMode.IntoAsync =>
      match send with
      | some s =>
          let attr_str := if s then "async_trait::async_trait"
            else "async_trait::async_trait(?Send)"
          (params, { item with attrs := item.attrs ++ [attr_str] })
      | none => (params, item)

/-- convert_struct (macros.rs, lines 139-144). -/
def convert_struct (params : MacroParameters) (item : ItemStruct) (_cm : ConvertMode) :
    MacroParameters × ItemStruct :=
  (params.original_self_name_set item.ident false, item)

/-- convert_enum (macros.rs, lines 146-151). -/
def convert_enum (params : MacroParameters) (item : ItemEnum) (_cm : ConvertMode) :
    MacroParameters × ItemEnum :=
  (params.original_self_name_set item.ident false, item)

/-- convert_trait (macros.rs, lines 153-172): strip method asyncness when
converting to sync; no structural edit when converting to async. -/
def convert_trait (params : MacroParameters) (item : ItemTrait) (cm : ConvertMode) :
    MacroParameters × ItemTrait :=
  let params := params.original_self_name_set item.ident false
  match cm with
  | ConvertMode.IntoSync => (params, { item with items := stripTraitMethods item.items })
  | ConvertMode.IntoAsync => (params, item)

/-- convert_fn (macros.rs, lines 174-189). -/
def convert_fn (params : MacroParameters) (item : ItemFn) (cm : ConvertMode) :
    MacroParameters × ItemFn :=
  let params := params.original_self_name_set item.sig.ident true
  match cm with
  | ConvertMode.IntoSync =>
      if item.sig.asyncness then
        (params, { item with sig := { item.sig with asyncness := false } })
      else (params, item)
  | ConvertMode.IntoAsync => (params, item)

/-- convert_use (macros.rs, lines 191-194): no registration, no structural
edit. -/
def convert_use (params : MacroParameters) (item : ItemUse) (_cm : ConvertMode) :
    MacroParameters × ItemUse :=
  (params, item)

/-- convert_mod (macros.rs, lines 196-200): the module name registers as a
call target. -/
def convert_mod (params : MacroParameters) (item : ItemMod) (_cm : ConvertMode) :
    MacroParameters × ItemMod :=
  (params.original_self_name_set item.ident true, item)

/-- One iteration of convert's dispatch (macros.rs, lines 79-92): any item
kind outside the seven supported aborts the invocation. -/
def convertItem (params : MacroParameters) (item : Item) (cm : ConvertMode) :
    Except String (MacroParameters × Item) :=
  match item with
  | Item.impl i =>
      Except.ok ((convert_impl params i cm).1, Item.impl (convert_impl params i cm).2)
  | Item.struct i =>
      Except.ok ((convert_struct params i cm).1, Item.struct (convert_struct params i cm).2)
  | Item.enum i =>
      Except.ok ((convert_enum params i cm).1, Item.enum (convert_enum params i cm).2)
  | Item.trait i =>
      Except.ok ((convert_trait params i cm).1, Item.trait (convert_trait params i cm).2)
  | Item.fn i =>
      Except.ok ((convert_fn params i cm).1, Item.fn (convert_fn params i cm).2)
  | Item.use i =>
      Except.ok ((convert_use params i cm).1, Item.use (convert_use params i cm).2)
  | Item.mod i =>
      Except.ok ((convert_mod params i cm).1, Item.mod (convert_mod params i cm).2)
  | Item.other _ =>
      Except.error "Allowed impl, struct, enum, trait, fn or use items only"

/-- The item loop of convert (macros.rs, lines 79-92), threading the
mutable params through the file's items; the first unsupported item aborts
with no output for the whole file. -/
def convertItems (params : MacroParameters) (items : List Item) (cm : ConvertMode) :
    Except String (MacroParameters × List Item) :=
  match items with
  | [] => Except.ok (params, [])
  | it :: rest =>
      match convertItem params it cm with
      | Except.error e => Except.error e
      | Except.ok (p2, it2) =>
          match convertItems p2 rest cm with
          | Except.error e => Except.error e
          | Except.ok (p3, rest2) => Except.ok (p3, it2 :: rest2)

/-- One token of a produced token stream, at the granularity the driver
manipulates: rendered attributes, a parsed item, the caller's raw tokens,
or the error tokens an aborted invocation leaves behind. -/
inductive Tok where
  | cfgAttr (m : Meta)
  | metaAttr (m : Meta)
  | strAttr (s : String)
  | selfAttr (path : List String) (args : NestedMetaList)
  | item (it : Item)
  | err (msg : String)
  | user (s : String)
deriving DecidableEq

/-- Render one decoration of an outer(...)/inner(...) list as an attribute
token: a Meta renders as `#[meta]`, a string literal is parsed as an
attribute (make_attr_ts_from_str, modelled as always succeeding); any
other literal is the source's `unreachable!()`, modelled as an error
token. -/
def attrTok : NestedMeta → Tok
  | NestedMeta.meta m => Tok.metaAttr m
  | NestedMeta.lit (Lit.str s) => Tok.strAttr s
  | NestedMeta.lit Lit.other => Tok.err "unreachable"

def NestedMetaList.attrToks : NestedMetaList → List Tok
  | NestedMetaList.nil => []
  | NestedMetaList.cons a rest => attrTok a :: NestedMetaList.attrToks rest

/-- MacroParameters::extend_tokenstream2_with_cfg_outer_attrs (params.rs,
lines 445-471): the cfg guard as a `#[cfg(...)]` attribute, then the outer
decorations. -/
def extendWithCfgOuterAttrs (p : MacroParameters) : List Tok :=
  (match p.base.cfg with
   | some c => [Tok.cfgAttr c]
   | none => []) ++ p.base.outer_attrs.attrToks

/-- MacroParameters::extend_tokenstream2_with_inner_attrs (params.rs,
lines 473-491). -/
def extendWithInnerAttrs (p : MacroParameters) : List Tok :=
  p.base.inner_attrs.attrToks

/-- parse_macro_input!(input as File): the input tokens parse as a file
exactly when every token is a parsed item. -/
def parseFile : List Tok → Option (List Item)
  | [] => some []
  | Tok.item it :: rest => (parseFile rest).map (fun its => it :: its)
  | Tok.cfgAttr _ :: _ => none
  | Tok.metaAttr _ :: _ => none
  | Tok.strAttr _ :: _ => none
  | Tok.selfAttr _ _ :: _ => none
  | Tok.err _ :: _ => none
  | Tok.user _ :: _ => none

/-- convert (macros.rs, lines 75-97) at the token level: parse the input
as a file, convert every item, render the rewritten items.  A parse
failure or an abort yields only error tokens, never partial output. -/
def convert (params : MacroParameters) (input : List Tok) (convert_mode : ConvertMode) :
    List Tok :=
  match parseFile input with
  | none => [Tok.err "expected items"]
  | some items =>
      match convertItems params items convert_mode with
      | Except.error e => [Tok.err e]
      | Except.ok (_, items2) => items2.map Tok.item

/-- The decoration block `maybe` emits before each copy of the input for
one declared variant (macros.rs, lines 49-61): the variant's cfg guard and
outer decorations, the self-referential `#[prefix::maybe(serialized args
with the variant's mode)]` attribute, then the variant's inner
decorations. -/
def versionDecoration (p : MacroParameters) (kind : ConvertMode) (q : MacroParameters) :
    List Tok :=
  extendWithCfgOuterAttrs q
    ++ [Tok.selfAttr (p.make_self_path MACRO_MAYBE_NAME) (q.to_nestedmeta (some kind))]
    ++ extendWithInnerAttrs q

/-- The version loop of maybe (macros.rs, lines 44-66): one decoration
block plus one full copy of the input per declared variant, in declaration
order. -/
def versionsExpand (p : MacroParameters) (input : List Tok) : VersionList → List Tok
  | VersionList.nil => []
  | VersionList.cons kind q rest =>
      (versionDecoration p kind q ++ input) ++ versionsExpand p input rest

/-- maybe (macros.rs, lines 29-71), after the argument parse: return the
input unchanged when disabled; delegate to convert when a mode is set;
otherwise emit the decorated copies for the declared variants. -/
def maybe (p : MacroParameters) (input : List Tok) : List Tok :=
  if p.disable_get then input
  else
    match p.mode_get with
    | some cm => convert p input cm
    | none => versionsExpand p input p.versions

/-!
### Concrete inputs and spec-side helper definitions used in claim statements
-/

/-- The mode-specific override of a rename rule (spec section 4.2, step 3). -/
def modeOverride (r : IdentRecord) : ConvertMode → Option String
  | ConvertMode.IntoSync => r.ident_sync
  | ConvertMode.IntoAsync => r.ident_async

/-- The deterministic fallback suffix of rename resolution (spec section
4.2, step 4). -/
def fallbackSuffix (fn_mode : Bool) : ConvertMode → String
  | ConvertMode.IntoAsync => if fn_mode then "_async" else "Async"
  | ConvertMode.IntoSync => if fn_mode then "_sync" else "Sync"

def C1parentRecord : IdentRecord := { IdentRecord.new with ident_sync := some "fromParent" }

def C1childRecord : IdentRecord := { IdentRecord.new with ident_sync := some "fromChild" }

def C1parent : MacroParameters :=
  MacroParameters.mk
    { MacroParametersBuilder.new.base with
      idents := [("shared", C1parentRecord)],
      replace_features := [("feat", "parentFeat")] }
    VersionList.nil

def C1child : MacroParameters :=
  MacroParameters.mk
    { MacroParametersBuilder.new.base with
      idents := [("shared", C1childRecord)],
      replace_features := [("feat", "childFeat")] }
    VersionList.nil

/-- An impl block with no attributes, no items and a non-path self type. -/
def C3impl : ItemImpl :=
  { attrs := [], self_ty := TypeRepr.other "MyStruct", items := [] }

/-- A configuration with prefix "foo" and send = Send. -/
def C3fooParams : MacroParameters :=
  MacroParameters.mk
    { MacroParametersBuilder.new.base with prefix_ := some "foo", send := some true }
    VersionList.nil

/-- The same configuration with prefix "bar". -/
def C3barParams : MacroParameters :=
  MacroParameters.mk
    { MacroParametersBuilder.new.base with prefix_ := some "bar", send := some true }
    VersionList.nil

/-- A configuration whose only setting is send = Send (the directive
`send = "Send"`). -/
def C2config : MacroParameters :=
  MacroParameters.mk { MacroParametersBuilder.new.base with send := some true }
    VersionList.nil

/-- What re-parsing C2config's serialization produces: the send setting is
gone and the prefix has absorbed its value. -/
def C2reparsed : MacroParameters :=
  MacroParameters.mk { MacroParametersBuilder.new.base with prefix_ := some "Send" }
    VersionList.nil

/-- A disabled configuration. -/
def C5disabled : MacroParameters :=
  MacroParameters.mk { MacroParametersBuilder.new.base with disable := true }
    VersionList.nil

/-- A configuration declaring the two variants sync(...) and async(...)
with no disable and no mode. -/
def C5two : MacroParameters :=
  MacroParameters.mk MacroParametersBuilder.new.base
    (VersionList.cons ConvertMode.IntoSync MacroParametersBuilder.new
      (VersionList.cons ConvertMode.IntoAsync MacroParametersBuilder.new
        VersionList.nil))

/-! ### Projection and HashMap lemmas -/

theorem MacroParameters.base_mk (b : MacroParametersBase) (vs : VersionList) :
    (MacroParameters.mk b vs).base = b := rfl

theorem MacroParameters.versions_mk (b : MacroParametersBase) (vs : VersionList) :
    (MacroParameters.mk b vs).versions = vs := rfl

theorem hmGet_cons {A : Type} (a : String × A) (t : List (String × A)) (k : String) :
    hmGet (a :: t) k = if a.1 = k then some a.2 else hmGet t k := by
  by_cases ha : a.1 = k
  · have hb : (a.1 == k) = true := by simpa using ha
    simp [hmGet, List.find?, hb, ha]
  · have hb : (a.1 == k) = false := by simpa using ha
    simp [hmGet, List.find?, hb, ha]

theorem hmGet_map_ne {A : Type} (m : List (String × A)) (k k' : String) (v : A)
    (h : k ≠ k') :
    hmGet (m.map (fun p => if p.1 == k' then (k', v) else p)) k = hmGet m k := by
  induction m with
  | nil => rfl
  | cons a t ih =>
      by_cases ha : a.1 = k'
      · have hb : (a.1 == k') = true := by simpa using ha
        rw [List.map_cons, hmGet_cons, hmGet_cons]
        simp only [hb, if_true]
        rw [if_neg (by simpa using Ne.symm h), if_neg (by rw [ha]; exact Ne.symm h), ih]
      · have hb : (a.1 == k') = false := by simpa using ha
        rw [List.map_cons, hmGet_cons, hmGet_cons]
        simp only [hb, Bool.false_eq_true, if_false, ih]

theorem hmInsert_cons_ne {A : Type} (a : String × A) (t : List (String × A))
    (k : String) (v : A) (ha : ¬a.1 = k) :
    hmInsert (a :: t) k v = a :: hmInsert t k v := by
  have hb : (a.1 == k) = false := by simpa using ha
  have hfind : List.find? (fun p => p.1 == k) (a :: t)
      = List.find? (fun p => p.1 == k) t := by
    simp [List.find?, hb]
  unfold hmInsert
  rw [hfind]
  by_cases hf : (List.find? (fun p => p.1 == k) t).isSome = true
  · rw [if_pos hf, if_pos hf, List.map_cons]
    congr 1
    simp [hb]
  · rw [if_neg hf, if_neg hf, List.cons_append]

theorem hmInsert_cons_eq {A : Type} (a : String × A) (t : List (String × A))
    (k : String) (v : A) (ha : a.1 = k) :
    hmInsert (a :: t) k v = (k, v) :: t.map (fun p => if p.1 == k then (k, v) else p) := by
  have hb : (a.1 == k) = true := by simpa using ha
  have hfind : List.find? (fun p => p.1 == k) (a :: t) = some a := by
    simp [List.find?, hb]
  unfold hmInsert
  rw [hfind]
  simp only [Option.isSome_some, if_true, List.map_cons]
  congr 1
  simp [hb]

theorem hmGet_hmInsert_self {A : Type} (m : List (String × A)) (k : String) (v : A) :
    hmGet (hmInsert m k v) k = some v := by
  induction m with
  | nil => simp [hmInsert, hmGet, List.find?]
  | cons a t ih =>
      by_cases ha : a.1 = k
      · rw [hmInsert_cons_eq a t k v ha, hmGet_cons, if_pos rfl]
      · rw [hmInsert_cons_ne a t k v ha, hmGet_cons, if_neg ha]
        exact ih

theorem hmGet_hmInsert_ne {A : Type} (m : List (String × A)) (k k' : String) (v : A)
    (h : k ≠ k') : hmGet (hmInsert m k' v) k = hmGet m k := by
  induction m with
  | nil =>
      have hb : (k' == k) = false := by simpa using Ne.symm h
      simp [hmInsert, hmGet, List.find?, hb]
  | cons a t ih =>
      by_cases ha : a.1 = k'
      · rw [hmInsert_cons_eq a t k' v ha, hmGet_cons, hmGet_cons,
          if_neg (Ne.symm h), if_neg (by rw [ha]; exact Ne.symm h)]
        exact hmGet_map_ne t k k' v h
      · rw [hmInsert_cons_ne a t k' v ha, hmGet_cons, hmGet_cons]
        by_cases hak : a.1 = k
        · rw [if_pos hak, if_pos hak]
        · rw [if_neg hak, if_neg hak]
          exact ih

theorem hmGet_hmExtend_not_mem {A : Type} (other : List (String × A)) (k : String)
    (h : k ∉ other.map Prod.fst) :
    ∀ m : List (String × A), hmGet (hmExtend m other) k = hmGet m k := by
  induction other with
  | nil => intro m; rfl
  | cons a t ih =>
      intro m
      rw [List.map_cons, List.mem_cons, not_or] at h
      have step : hmExtend m (a :: t) = hmExtend (hmInsert m a.1 a.2) t := rfl
      rw [step, ih h.2, hmGet_hmInsert_ne m k a.1 a.2 h.1]

theorem hmGet_hmExtend_mem {A : Type} (other : List (String × A)) (k : String) (v : A)
    (hnd : (other.map Prod.fst).Nodup) (h : hmGet other k = some v) :
    ∀ m : List (String × A), hmGet (hmExtend m other) k = some v := by
  induction other with
  | nil => simp [hmGet, List.find?] at h
  | cons a t ih =>
      intro m
      rw [List.map_cons, List.nodup_cons] at hnd
      have step : hmExtend m (a :: t) = hmExtend (hmInsert m a.1 a.2) t := rfl
      rw [hmGet_cons] at h
      by_cases ha : a.1 = k
      · rw [if_pos ha] at h
        obtain rfl : a.2 = v := by injection h
        subst ha
        rw [step, hmGet_hmExtend_not_mem t a.1 hnd.1, hmGet_hmInsert_self]
      · rw [if_neg ha] at h
        rw [step]
        exact ih hnd.2 h (hmInsert m a.1 a.2)

/-! ### Field descriptions of the inheritance merge -/

theorem apply_parent_idents (child parent : MacroParameters) :
    ((MacroParameters.apply_parent child parent).base).idents
      = if parent.base.idents.isEmpty then child.base.idents
        else hmExtend child.base.idents parent.base.idents := by
  obtain ⟨pb, pvs⟩ := parent
  obtain ⟨cb, cvs⟩ := child
  rfl

theorem apply_parent_replace_features (child parent : MacroParameters) :
    ((MacroParameters.apply_parent child parent).base).replace_features
      = if parent.base.replace_features.isEmpty then child.base.replace_features
        else hmExtend child.base.replace_features parent.base.replace_features := by
  obtain ⟨pb, pvs⟩ := parent
  obtain ⟨cb, cvs⟩ := child
  rfl

theorem apply_parent_drop_attrs (child parent : MacroParameters) :
    ((MacroParameters.apply_parent child parent).base).drop_attrs
      = if parent.base.drop_attrs.isEmpty then child.base.drop_attrs
        else parent.base.drop_attrs ++ child.base.drop_attrs := by
  obtain ⟨pb, pvs⟩ := parent
  obtain ⟨cb, cvs⟩ := child
  rfl

/-! ### C1: inheritance merge precedence on key collision -/

/-- C1, counterexample: a key present in both the parent's and the child's
rename table (and feature-rename map) ends with the PARENT's entry after
apply_parent, not the child's as the claim states: the source's
`child.idents.extend(parent.idents.clone())` overwrites the child's
entries with the parent's. -/
theorem C1_counterexample :
    hmGet ((MacroParameters.apply_parent C1child C1parent).base).idents "shared"
        = some C1parentRecord
      ∧ hmGet (C1child.base).idents "shared" = some C1childRecord
      ∧ C1parentRecord ≠ C1childRecord
      ∧ hmGet ((MacroParameters.apply_parent C1child C1parent).base).replace_features "feat"
          = some "parentFeat"
      ∧ hmGet (C1child.base).replace_features "feat" = some "childFeat" := by
  refine ⟨by decide, by decide, by decide, by decide, by decide⟩

/-- C1, amended: in apply_parent, for every key present in the parent's
rename table (respectively feature-rename map), the merged table keeps the
PARENT's entry: parent entries take precedence over child entries on key
collision, and a child entry survives only for keys the parent lacks. -/
theorem C1_parent_precedence (parent child : MacroParameters) (k : String) :
    (∀ v, (parent.base.idents.map Prod.fst).Nodup →
        hmGet parent.base.idents k = some v →
        hmGet ((MacroParameters.apply_parent child parent).base).idents k = some v)
    ∧ (∀ v, (parent.base.replace_features.map Prod.fst).Nodup →
        hmGet parent.base.replace_features k = some v →
        hmGet ((MacroParameters.apply_parent child parent).base).replace_features k
          = some v) := by
  constructor
  · intro v hnd hget
    have hne : parent.base.idents.isEmpty = false := by
      cases hp : parent.base.idents with
      | nil => rw [hp] at hget; simp [hmGet, List.find?] at hget
      | cons a t => simp
    rw [apply_parent_idents, hne]
    simp only [Bool.false_eq_true, if_false]
    exact hmGet_hmExtend_mem parent.base.idents k v hnd hget child.base.idents
  · intro v hnd hget
    have hne : parent.base.replace_features.isEmpty = false := by
      cases hp : parent.base.replace_features with
      | nil => rw [hp] at hget; simp [hmGet, List.find?] at hget
      | cons a t => simp
    rw [apply_parent_replace_features, hne]
    simp only [Bool.false_eq_true, if_false]
    exact hmGet_hmExtend_mem parent.base.replace_features k v hnd hget
      child.base.replace_features

/-! ### C6: dropped-attribute lists concatenate, parent first -/

/-- C6: in the inheritance merge, the child's merged dropped-attribute list
is exactly the parent's list followed by the child's own, so a child can
append drops but not remove or reorder the parent's. -/
theorem C6_drop_attrs_merge (parent child : MacroParameters) :
    ((MacroParameters.apply_parent child parent).base).drop_attrs
      = parent.base.drop_attrs ++ child.base.drop_attrs := by
  rw [apply_parent_drop_attrs]
  cases hp : parent.base.drop_attrs with
  | nil => simp
  | cons a t => simp

/-! ### C4: rename resolution precedence -/

/-- C4: rename resolution precedence of ident_add_suffix, highest first:
a `keep` rule returns the identifier verbatim whatever the other fields; a
per-variant override for the supplied variant key beats the mode-specific
override; the mode-specific override for the requested mode comes next;
otherwise the deterministic fallback appends Async/Sync for non-call
identifiers and _async/_sync for call-style ones. -/
theorem C4_rename_precedence (r : IdentRecord) (ident : String) (cm : ConvertMode)
    (vn : Option String) :
    (r.keep = true → r.ident_add_suffix ident cm vn = ident)
    ∧ (r.keep = false → ∀ k v, vn = some k →
        r.idents.bind (fun m => hmGet m k) = some v →
        r.ident_add_suffix ident cm vn = v)
    ∧ (r.keep = false →
        vn.bind (fun k => r.idents.bind (fun m => hmGet m k)) = none →
        ∀ name, modeOverride r cm = some name →
        r.ident_add_suffix ident cm vn = name)
    ∧ (r.keep = false →
        vn.bind (fun k => r.idents.bind (fun m => hmGet m k)) = none →
        modeOverride r cm = none →
        r.ident_add_suffix ident cm vn = ident ++ fallbackSuffix r.fn_mode cm) := by
  refine ⟨?_, ?_, ?_, ?_⟩
  · intro hk
    simp [IdentRecord.ident_add_suffix, hk]
  · intro hk k v hvn hget
    subst hvn
    simp [IdentRecord.ident_add_suffix, hk, Option.bind_some, hget]
  · intro hk hnone name hmode
    cases cm
    all_goals
      simp only [modeOverride] at hmode
      unfold IdentRecord.ident_add_suffix
      rw [if_neg (by simp [hk]), hnone, hmode]
  · intro hk hnone hmode
    cases cm <;> cases hf : r.fn_mode
    all_goals
      simp only [modeOverride] at hmode
      unfold IdentRecord.ident_add_suffix
      rw [if_neg (by simp [hk]), hnone, hmode, hf]
      simp [fallbackSuffix]

/-- C4, witness: a concrete rule holding a keep-free per-variant override
alongside a mode-specific override resolves to the per-variant name. -/
theorem C4_rename_precedence_witness :
    ({ fn_mode := false, use_mode := false, keep := false,
       ident_sync := some "modeName", ident_async := none,
       idents := some [("special", "variantName")] } : IdentRecord).ident_add_suffix
        "orig" ConvertMode.IntoSync (some "special") = "variantName" :=
  (C4_rename_precedence _ "orig" ConvertMode.IntoSync (some "special")).2.1 rfl
    "special" "variantName" rfl rfl

/-! ### C7: self-name registration -/

theorem MacroParameters.base_mapBase (f : MacroParametersBase → MacroParametersBase)
    (p : MacroParameters) : (p.mapBase f).base = f p.base := by
  obtain ⟨b, vs⟩ := p
  rfl

/-- C7: registering the unit's own name is a no-op when keep_self is set or
the name already has a rename-table entry; a fresh rule's per-variant
overrides are exactly {key: self_name} when both are configured and empty
otherwise; fn and module names register as call targets, struct, enum,
trait and impl-self names as non-call targets. -/
theorem C7_self_name_registration (p : MacroParameters) (name : String) (fm : Bool) :
    (p.base.keep_self = true → p.original_self_name_set name fm = p)
    ∧ (∀ r, hmGet p.base.idents name = some r → p.original_self_name_set name fm = p)
    ∧ (p.base.keep_self = false → hmGet p.base.idents name = none →
        ∀ k s, p.base.key = some k → p.base.self_name = some s →
        hmGet ((p.original_self_name_set name fm).base).idents name
          = some { IdentRecord.with_fn_mode fm with idents := some [(k, s)] })
    ∧ (p.base.keep_self = false → hmGet p.base.idents name = none →
        (p.base.key = none ∨ p.base.self_name = none) →
        hmGet ((p.original_self_name_set name fm).base).idents name
          = some (IdentRecord.with_fn_mode fm))
    ∧ (∀ (f : ItemFn) cm, (convert_fn p f cm).1 = p.original_self_name_set f.sig.ident true)
    ∧ (∀ (m : ItemMod) cm, (convert_mod p m cm).1 = p.original_self_name_set m.ident true)
    ∧ (∀ (s : ItemStruct) cm,
        (convert_struct p s cm).1 = p.original_self_name_set s.ident false)
    ∧ (∀ (e : ItemEnum) cm, (convert_enum p e cm).1 = p.original_self_name_set e.ident false)
    ∧ (∀ (t : ItemTrait) cm,
        (convert_trait p t cm).1 = p.original_self_name_set t.ident false)
    ∧ (∀ (i : ItemImpl) segs last cm, i.self_ty = TypeRepr.path segs →
        segs.getLast? = some last →
        (convert_impl p i cm).1 = p.original_self_name_set last false) := by
  refine ⟨?_, ?_, ?_, ?_, ?_, ?_, ?_, ?_, ?_, ?_⟩
  · intro hks
    simp [MacroParameters.original_self_name_set, hks]
  · intro r hr
    by_cases hks : p.base.keep_self = true <;>
      simp [MacroParameters.original_self_name_set, hks, hr]
  · intro hks hnone k s hk hs
    unfold MacroParameters.original_self_name_set
    rw [if_neg (by simp [hks]), if_neg (by simp [hnone])]
    simp only [MacroParameters.default_ident_record, hk, hs]
    rw [MacroParameters.base_mapBase]
    exact hmGet_hmInsert_self _ _ _
  · intro hks hnone hor
    unfold MacroParameters.original_self_name_set
    rw [if_neg (by simp [hks]), if_neg (by simp [hnone])]
    simp only [MacroParameters.default_ident_record]
    rcases hko : p.base.key with _ | k0 <;> rcases hso : p.base.self_name with _ | s0
    · rw [MacroParameters.base_mapBase]; exact hmGet_hmInsert_self _ _ _
    · rw [MacroParameters.base_mapBase]; exact hmGet_hmInsert_self _ _ _
    · rw [MacroParameters.base_mapBase]; exact hmGet_hmInsert_self _ _ _
    · rcases hor with h | h
      · rw [hko] at h; exact absurd h (by simp)
      · rw [hso] at h; exact absurd h (by simp)
  · intro f cm
    cases cm with
    | IntoSync => by_cases h : f.sig.asyncness <;> simp [convert_fn, h]
    | IntoAsync => rfl
  · intro m cm
    rfl
  · intro s cm
    rfl
  · intro e cm
    rfl
  · intro t cm
    cases cm <;> rfl
  · intro i segs last cm hty hlast
    cases cm with
    | IntoSync => simp [convert_impl, hty, hlast]
    | IntoAsync =>
        simp only [convert_impl, hty, hlast]
        cases h : (p.original_self_name_set last false).send_get <;> simp [h]

/-- C7, witness: on a fresh configuration carrying key "k" and self-name
"Me", registering the name "Unit" seeds exactly the pair ("k", "Me"); and
registering again leaves the table unchanged. -/
theorem C7_self_name_registration_witness :
    hmGet (((MacroParameters.mk
          { MacroParametersBuilder.new.base with key := some "k", self_name := some "Me" }
          VersionList.nil).original_self_name_set "Unit" true).base).idents "Unit"
      = some { IdentRecord.with_fn_mode true with idents := some [("k", "Me")] } :=
  (C7_self_name_registration
      (MacroParameters.mk
        { MacroParametersBuilder.new.base with key := some "k", self_name := some "Me" }
        VersionList.nil) "Unit" true).2.2.1 rfl rfl "k" "Me" rfl rfl

/-! ### C3: suspension-capability attribute injection (corrected) -/

theorem send_get_original_self_name_set (p : MacroParameters) (n : String) (fm : Bool) :
    (p.original_self_name_set n fm).send_get = p.send_get := by
  unfold MacroParameters.original_self_name_set
  by_cases h1 : p.base.keep_self = true
  · rw [if_pos h1]
  · rw [if_neg h1]
    by_cases h2 : (hmGet p.base.idents n).isSome = true
    · rw [if_pos h2]
    · rw [if_neg h2]
      rw [MacroParameters.send_get, MacroParameters.base_mapBase]
      rfl

/-- C3, counterexample: the injected suspension-capability attribute is the
fixed path `async_trait::async_trait`, not a directive name derived from
the `prefix` setting: two configurations whose prefixes differ ("foo"
versus "bar") inject the identical attribute, which mentions neither. -/
theorem C3_counterexample :
    MacroParameters.prefix_get C3fooParams = "foo"
    ∧ MacroParameters.prefix_get C3barParams = "bar"
    ∧ ((convert_impl C3fooParams C3impl ConvertMode.IntoAsync).2).attrs
        = ["async_trait::async_trait"]
    ∧ ((convert_impl C3barParams C3impl ConvertMode.IntoAsync).2).attrs
        = ["async_trait::async_trait"] :=
  ⟨rfl, rfl, rfl, rfl⟩

/-- C3, amended: when converting an impl block to asynchronous mode an
attribute is appended on the block exactly when the send preference is
configured — the shared-safe form `async_trait::async_trait` for send =
true, the non-shared form `async_trait::async_trait(?Send)` for send =
false — and the attribute's directive name is the fixed external path
`async_trait`, unaffected by the `prefix` setting (prefix only names the
macro's own attribute namespace, see make_self_path). -/
theorem C3_send_attr_injection (p : MacroParameters) (item : ItemImpl) :
    ((convert_impl p item ConvertMode.IntoAsync).2).attrs
      = item.attrs ++ (match p.send_get with
          | none => []
          | some true => ["async_trait::async_trait"]
          | some false => ["async_trait::async_trait(?Send)"])
    ∧ ((convert_impl p item ConvertMode.IntoAsync).2).items = item.items
    ∧ ((convert_impl p item ConvertMode.IntoAsync).2).self_ty = item.self_ty := by
  obtain ⟨attrs, self_ty, items⟩ := item
  cases self_ty with
  | other d =>
      cases h : p.send_get with
      | none => simp_all [convert_impl]
      | some b => cases b <;> simp_all [convert_impl]
  | path segs =>
      cases hl : segs.getLast? with
      | none =>
          cases h : p.send_get with
          | none => simp_all [convert_impl]
          | some b => cases b <;> simp_all [convert_impl]
      | some last =>
          have h2 := send_get_original_self_name_set p last false
          cases h : p.send_get with
          | none =>
              rw [h] at h2
              simp_all [convert_impl]
          | some b =>
              rw [h] at h2
              cases b <;> simp_all [convert_impl]

/-! ### C8: structural stripping and its frame -/

theorem stripImplMethods_eq (items : List ImplItem) :
    stripImplMethods items = items.map (fun it => match it with
      | ImplItem.method sig rest => ImplItem.method { sig with asyncness := false } rest
      | ImplItem.other d => ImplItem.other d) := by
  unfold stripImplMethods
  congr 1
  funext it
  cases it with
  | method sig rest =>
      obtain ⟨idn, asy⟩ := sig
      cases asy <;> rfl
  | other d => rfl

theorem stripTraitMethods_eq (items : List TraitItem) :
    stripTraitMethods items = items.map (fun it => match it with
      | TraitItem.method sig rest => TraitItem.method { sig with asyncness := false } rest
      | TraitItem.other d => TraitItem.other d) := by
  unfold stripTraitMethods
  congr 1
  funext it
  cases it with
  | method sig rest =>
      obtain ⟨idn, asy⟩ := sig
      cases asy <;> rfl
  | other d => rfl

/-- C8: converting an impl block or a trait to synchronous mode removes the
asyncness marker from every method signature and leaves non-method items,
the attribute list and the self type untouched; converting a trait or a
standalone function to asynchronous mode performs no structural edit at
that declaration. -/
theorem C8_structural_stripping (p : MacroParameters) :
    (∀ i : ItemImpl,
        ((convert_impl p i ConvertMode.IntoSync).2).items
            = i.items.map (fun it => match it with
                | ImplItem.method sig rest =>
                    ImplItem.method { sig with asyncness := false } rest
                | ImplItem.other d => ImplItem.other d)
          ∧ ((convert_impl p i ConvertMode.IntoSync).2).attrs = i.attrs
          ∧ ((convert_impl p i ConvertMode.IntoSync).2).self_ty = i.self_ty)
    ∧ (∀ t : ItemTrait,
        ((convert_trait p t ConvertMode.IntoSync).2).items
            = t.items.map (fun it => match it with
                | TraitItem.method sig rest =>
                    TraitItem.method { sig with asyncness := false } rest
                | TraitItem.other d => TraitItem.other d)
          ∧ ((convert_trait p t ConvertMode.IntoSync).2).ident = t.ident)
    ∧ (∀ t : ItemTrait, (convert_trait p t ConvertMode.IntoAsync).2 = t)
    ∧ (∀ f : ItemFn, (convert_fn p f ConvertMode.IntoAsync).2 = f) := by
  refine ⟨?_, ?_, ?_, ?_⟩
  · intro i
    exact ⟨stripImplMethods_eq i.items, rfl, rfl⟩
  · intro t
    exact ⟨stripTraitMethods_eq t.items, rfl⟩
  · intro t
    rfl
  · intro f
    rfl

/-! ### C5 and C10: the variant emission driver -/

theorem convertItems_length (p : MacroParameters) (items : List Item) (cm : ConvertMode) :
    ∀ p2 items2, convertItems p items cm = Except.ok (p2, items2) →
      items2.length = items.length := by
  induction items generalizing p with
  | nil =>
      intro p2 items2 h
      simp only [convertItems, Except.ok.injEq, Prod.mk.injEq] at h
      rw [← h.2]
  | cons it rest ih =>
      intro p2 items2 h
      simp only [convertItems] at h
      split at h
      · exact absurd h (by simp)
      · rename_i p3 it2 hci
        split at h
        · exact absurd h (by simp)
        · rename_i p4 rest2 hcr
          simp only [Except.ok.injEq, Prod.mk.injEq] at h
          rw [← h.2]
          simp [ih _ _ _ hcr]

/-- C5: the variant emission driver: a disabled configuration returns the
input unchanged; a configuration carrying a mode delegates to convert,
whose item loop returns exactly one rewritten item per input item; a
two-variant configuration with neither disable nor mode emits exactly two
decorated copies, in declaration order, each wrapping one full copy of the
original input tokens. -/
theorem C5_variant_emission (p : MacroParameters) (input : List Tok) :
    (p.disable_get = true → maybe p input = input)
    ∧ (p.disable_get = false → ∀ cm, p.mode_get = some cm →
        maybe p input = convert p input cm
          ∧ ∀ items p2 items2, convertItems p items cm = Except.ok (p2, items2) →
              items2.length = items.length)
    ∧ (p.disable_get = false → p.mode_get = none →
        ∀ k1 q1 k2 q2,
          p.versions = VersionList.cons k1 q1 (VersionList.cons k2 q2 VersionList.nil) →
          maybe p input
            = versionDecoration p k1 q1 ++ input
                ++ (versionDecoration p k2 q2 ++ input)) := by
  refine ⟨?_, ?_, ?_⟩
  · intro h1
    simp [maybe, h1]
  · intro h1 cm h2
    refine ⟨by simp [maybe, h1, h2], ?_⟩
    intro items p2 items2 h
    exact convertItems_length p items cm p2 items2 h
  · intro h1 h2 k1 q1 k2 q2 hv
    simp [maybe, h1, h2, hv, versionsExpand, List.append_assoc]

/-- C5, witness: a concrete two-variant configuration emits exactly the
two decorated copies around the payload, and a disabled one returns the
payload untouched. -/
theorem C5_variant_emission_witness :
    maybe C5disabled [Tok.user "payload"] = [Tok.user "payload"]
    ∧ maybe C5two [Tok.user "payload"]
      = versionDecoration C5two ConvertMode.IntoSync MacroParametersBuilder.new
            ++ [Tok.user "payload"]
          ++ (versionDecoration C5two ConvertMode.IntoAsync MacroParametersBuilder.new
            ++ [Tok.user "payload"]) :=
  ⟨(C5_variant_emission C5disabled [Tok.user "payload"]).1 rfl,
    (C5_variant_emission C5two [Tok.user "payload"]).2.2 rfl rfl ConvertMode.IntoSync
      MacroParametersBuilder.new ConvertMode.IntoAsync MacroParametersBuilder.new rfl⟩

/-- C10: a configuration with disable unset, no mode and zero declared
variants makes the driver return the empty token stream: the original unit
is dropped from the output entirely. -/
theorem C10_zero_versions (p : MacroParameters) (input : List Tok)
    (h1 : p.disable_get = false) (h2 : p.mode_get = none)
    (h3 : p.versions = VersionList.nil) :
    maybe p input = [] := by
  simp [maybe, h1, h2, h3, versionsExpand]

/-- C10, witness: the all-default configuration drops a nonempty payload. -/
theorem C10_zero_versions_witness :
    maybe MacroParametersBuilder.new [Tok.user "fn f() {}"] = [] :=
  C10_zero_versions MacroParametersBuilder.new [Tok.user "fn f() {}"] rfl rfl rfl

/-! ### C9: malformed directives and unsupported item kinds are fatal -/

/-- C9: every malformed directive is a fatal error of the parse, and every
unsupported top-level item kind aborts convert with no partial output: a
cfg(...) list with other than exactly one nested condition, a
replace_feature(...) list with other than exactly two string literals, an
unrecognized name in name = value position, and a file containing an item
outside the supported kinds. -/
theorem C9_malformed_directives_fatal :
    (∀ (p : MacroParameters) (nested : NestedMetaList),
        nested.length ≠ 1 →
        MacroParametersBuilder.cfg_list p nested = Except.error "Expected condition")
    ∧ (∀ (p : MacroParameters) (nested : NestedMetaList),
        (∀ s1 s2, nested ≠ NestedMetaList.cons (NestedMeta.lit (Lit.str s1))
            (NestedMetaList.cons (NestedMeta.lit (Lit.str s2)) NestedMetaList.nil)) →
        ∃ e, MacroParametersBuilder.replace_feature p nested = Except.error e)
    ∧ (∀ (p : MacroParameters) (name : String) (segs : List String) (lit : Lit),
        name ∉ (["key", "self", "prefix", "send", "feature"] : List String) →
        stepNameValue p name segs lit
          = Except.error ("Wrong name for name-value pair: " ++ name))
    ∧ (∀ (p : MacroParameters) (items : List Item) (cm : ConvertMode) (d : String),
        Item.other d ∈ items → ∃ e, convertItems p items cm = Except.error e)
    ∧ (∀ (p : MacroParameters) (input : List Tok) (cm : ConvertMode) (items : List Item)
        (d : String), parseFile input = some items → Item.other d ∈ items →
        ∃ e, convert p input cm = [Tok.err e]) := by
  have hconv : ∀ (p : MacroParameters) (items : List Item) (cm : ConvertMode) (d : String),
      Item.other d ∈ items → ∃ e, convertItems p items cm = Except.error e := by
    intro p items cm d
    induction items generalizing p with
    | nil =>
        intro hmem
        simp at hmem
    | cons it rest ih =>
        intro hmem
        rw [List.mem_cons] at hmem
        rcases hmem with rfl | hmem
        · exact ⟨"Allowed impl, struct, enum, trait, fn or use items only", rfl⟩
        · cases hci : convertItem p it cm with
          | error e => exact ⟨e, by simp [convertItems, hci]⟩
          | ok pr =>
              obtain ⟨p3, it2⟩ := pr
              obtain ⟨e, he⟩ := ih p3 hmem
              exact ⟨e, by simp [convertItems, hci, he]⟩
  refine ⟨?_, ?_, ?_, hconv, ?_⟩
  · intro p nested h
    cases nested with
    | nil => rfl
    | cons a t =>
        cases t with
        | nil => exact absurd rfl h
        | cons b t2 =>
            cases a with
            | meta m => rfl
            | lit l => rfl
  · intro p nested h
    cases nested with
    | nil => exact ⟨"Expected two string literals", rfl⟩
    | cons m0 t =>
        cases t with
        | nil => exact ⟨"Expected two string literals", rfl⟩
        | cons m1 t2 =>
            cases t2 with
            | nil =>
                cases m0 with
                | meta m => exact ⟨"Expected string literal", rfl⟩
                | lit l0 =>
                    cases l0 with
                    | str s1 =>
                        cases m1 with
                        | meta m => exact ⟨"Expected string literal", rfl⟩
                        | lit l1 =>
                            cases l1 with
                            | str s2 => exact absurd rfl (h s1 s2)
                            | other => exact ⟨"Expected string literal", rfl⟩
                    | other => exact ⟨"Expected string literal", rfl⟩
            | cons m2 t3 => exact ⟨"Expected two string literals", rfl⟩
  · intro p name segs lit h
    unfold stepNameValue
    split <;> simp_all
  · intro p input cm items d hparse hmem
    obtain ⟨e, he⟩ := hconv p items cm d hmem
    exact ⟨e, by simp [convert, hparse, he]⟩

/-- C9, witness: concrete malformed directives fail with the source's
messages, and a file holding a static item aborts convert. -/
theorem C9_malformed_directives_fatal_witness :
    MacroParametersBuilder.cfg_list MacroParametersBuilder.new NestedMetaList.nil
        = Except.error "Expected condition"
    ∧ (∃ e, MacroParametersBuilder.replace_feature MacroParametersBuilder.new
        (NestedMetaList.cons (NestedMeta.lit (Lit.str "old")) NestedMetaList.nil)
        = Except.error e)
    ∧ stepNameValue MacroParametersBuilder.new "bogus" ["bogus"] (Lit.str "x")
        = Except.error ("Wrong name for name-value pair: " ++ "bogus")
    ∧ (∃ e, convertItems MacroParametersBuilder.new [Item.other "static X: u8 = 0;"]
        ConvertMode.IntoSync = Except.error e)
    ∧ (∃ e, convert MacroParametersBuilder.new [Tok.item (Item.other "static X: u8 = 0;")]
        ConvertMode.IntoSync = [Tok.err e]) :=
  ⟨C9_malformed_directives_fatal.1 MacroParametersBuilder.new NestedMetaList.nil
      (by decide),
    C9_malformed_directives_fatal.2.1 MacroParametersBuilder.new
      (NestedMetaList.cons (NestedMeta.lit (Lit.str "old")) NestedMetaList.nil)
      (fun s1 s2 h => by simp at h),
    C9_malformed_directives_fatal.2.2.1 MacroParametersBuilder.new "bogus" ["bogus"]
      (Lit.str "x") (by decide),
    C9_malformed_directives_fatal.2.2.2.1 MacroParametersBuilder.new
      [Item.other "static X: u8 = 0;"] ConvertMode.IntoSync "static X: u8 = 0;"
      (List.mem_singleton.mpr rfl),
    C9_malformed_directives_fatal.2.2.2.2 MacroParametersBuilder.new
      [Tok.item (Item.other "static X: u8 = 0;")] ConvertMode.IntoSync
      [Item.other "static X: u8 = 0;"] "static X: u8 = 0;" rfl
      (List.mem_singleton.mpr rfl)⟩

/-! ### C2: the serialize/re-parse round trip loses send and corrupts prefix -/

/-- C2: the round trip is NOT faithful for the send setting and the prefix:
to_nestedmeta serializes send under the name "prefix" (params.rs lines
376-381), so a configuration with send = Send and no prefix re-parses to a
configuration with no send setting and prefix "Send". -/
theorem C2_send_roundtrip_bug :
    C2config.send_get = some true
    ∧ (C2config.base).prefix_ = none
    ∧ MacroParameters.from_args (C2config.to_nestedmeta none) = Except.ok C2reparsed
    ∧ C2reparsed.send_get = none
    ∧ (C2reparsed.base).prefix_ = some "Send" :=
  ⟨rfl, rfl, rfl, rfl, rfl⟩

end MaybeAsyncCfg
